import Mathlib

/-!
Verification development for the moltguard skill-file scanner.

The scanner is embedded shallowly: lines are lists of characters, each
regular expression of the rule catalog is translated to an explicit
matching function with the same search semantics (unanchored search; the
dot of a pattern matches any character except a newline), and the
per-line check, the file scan, the stateful scanner object and the
report generator are translated function by function from the source.
-/

namespace Moltguard

/-- Characters of a string literal, for writing pattern and line data. -/
def cl (s : String) : List Char := s.toList

/-- Lowercasing of a line, as the source applies str.lower before
matching the credential, exfiltration and dangerous-operation rules.
ASCII letters are mapped to lower case; other characters are kept. -/
def lowerL (l : List Char) : List Char := l.map Char.toLower

/-- ASCII whitespace as recognised by str.strip. -/
def isPySpace (c : Char) : Bool :=
  c = ' ' || c = '\t' || c = '\n' || c = '\r' || c = '\x0b' || c = '\x0c'

/-- str.strip: remove leading and trailing whitespace. -/
def stripL (l : List Char) : List Char :=
  ((l.dropWhile isPySpace).reverse.dropWhile isPySpace).reverse

/-- str.split on a newline: every newline separates two pieces, and the
empty string yields one empty piece. -/
def splitNl : List Char → List (List Char)
  | [] => [[]]
  | c :: rest =>
    if c = '\n' then [] :: splitNl rest
    else
      match splitNl rest with
      | [] => [[c]]
      | p :: ps => (c :: p) :: ps

/-- Unanchored substring search: the pattern occurs somewhere in the
line. -/
def hasSub (pat : List Char) : List Char → Bool
  | [] => pat.isPrefixOf ([] : List Char)
  | c :: rest => pat.isPrefixOf (c :: rest) || hasSub pat rest

/-- Search for a trailing part after a gap of arbitrary non-newline
characters: the semantics of a dot-star followed by the literal b, at
the current position. -/
def dotStarThen (b : List Char) : List Char → Bool
  | [] => b.isPrefixOf ([] : List Char)
  | c :: rest => b.isPrefixOf (c :: rest) || (c != '\n' && dotStarThen b rest)

/-- Unanchored search for a literal a, then a gap of arbitrary
non-newline characters, then a literal b. -/
def seqSub (a b : List Char) : List Char → Bool
  | [] => a.isPrefixOf ([] : List Char) && dotStarThen b ([] : List Char)
  | c :: rest =>
    (a.isPrefixOf (c :: rest) && dotStarThen b (List.drop a.length (c :: rest)))
      || seqSub a b rest

/-- Match, at the head of s, the literal pre, then one arbitrary
non-newline character, then the literal post. -/
def preDotAt (pre post s : List Char) : Bool :=
  pre.isPrefixOf s &&
    (match List.drop pre.length s with
     | [] => false
     | c :: r2 => c != '\n' && post.isPrefixOf r2)

/-- Unanchored search for pre, one arbitrary non-newline character, and
post. -/
def preDotPost (pre post : List Char) : List Char → Bool
  | [] => preDotAt pre post []
  | c :: rest => preDotAt pre post (c :: rest) || preDotPost pre post rest

/-- The shapes of regular expression used by the rule catalog: a plain
literal (escaped dots are literal dots), a finite alternation of
literals (for optional or alternated groups), a literal followed after a
dot-star gap by a second literal, and a literal followed by a single
arbitrary character and a second literal. -/
inductive Pat where
  | lit : List Char → Pat
  | alts : List (List Char) → Pat
  | seq : List Char → List Char → Pat
  | preDot : List Char → List Char → Pat
deriving DecidableEq

/-- re.search of a catalog pattern against a target string. -/
def Pat.search : Pat → List Char → Bool
  | .lit p, s => hasSub p s
  | .alts ps, s => ps.any (fun p => hasSub p s)
  | .seq a b, s => seqSub a b s
  | .preDot a b, s => preDotPost a b s

/-- One detected rule match. -/
structure Finding where
  severity : String
  category : String
  line : Nat
  snippet : List Char
  explanation : String
deriving DecidableEq

/-- Patterns that indicate credential theft. The first pattern is the
regular expression api, an optional underscore or hyphen, then key. The
seventh uses a dot-star gap and the eighth a single-dot wildcard. -/
def CRED_THEFT_PATTERNS : List (Pat × String) :=
  [(.alts [cl "apikey", cl "api_key", cl "api-key"], "API key access"),
   (.lit (cl "password"), "Password access"),
   (.lit (cl "token"), "Token access"),
   (.lit (cl "secret"), "Secret access"),
   (.lit (cl "credential"), "Credential access"),
   (.lit (cl ".env"), "Environment file access"),
   (.seq (cl "clawdbot") (cl "credential"), "Clawdbot credentials"),
   (.preDot (cl "~/") (cl "clawdbot"), "Clawdbot config directory")]

/-- Patterns that indicate data exfiltration. The third, fourth and
fifth patterns carry a dot-star gap; the upper-case letters of the third
and fourth are kept exactly as the source writes them. -/
def EXFIL_PATTERNS : List (Pat × String) :=
  [(.lit (cl "webhook.site"), "Known exfiltration endpoint"),
   (.lit (cl "requestbin"), "Known exfiltration endpoint"),
   (.seq (cl "POST") (cl "http"), "HTTP POST (potential exfil)"),
   (.seq (cl "curl") (cl "-X POST"), "cURL POST (potential exfil)"),
   (.seq (cl "fetch(") (cl "http"), "HTTP fetch (potential exfil)")]

/-- Patterns that indicate prompt injection attempts. These are matched
case-insensitively, which is embedded by storing the patterns in lower
case and matching against the lowercased line. -/
def INJECTION_PATTERNS : List (Pat × String) :=
  [(.lit (cl "[ignore]"), "Prompt injection: [IGNORE] tag"),
   (.lit (cl "system:"), "Prompt injection: System override"),
   (.lit (cl "previous instructions"), "Prompt injection: instruction override"),
   (.alts [cl "ignore all previous", cl "ignore all prior",
           cl "ignore your previous", cl "ignore your prior"],
    "Prompt injection: ignore previous"),
   (.alts [cl "you are now", cl "you are no longer"],
    "Prompt injection: role override"),
   (.lit (cl "override"), "Prompt injection: OVERRIDE directive"),
   (.lit (cl "system override"), "Prompt injection: system override")]

/-- Dangerous permissions. -/
def DANGEROUS_PATTERNS : List (Pat × String) :=
  [(.lit (cl "rm -rf"), "Destructive file operation"),
   (.lit (cl "> /dev/null"), "Output suppression (suspicious)"),
   (.lit (cl "eval("), "Code evaluation (dangerous)"),
   (.lit (cl "exec("), "Code execution (dangerous)"),
   (.lit (cl "__import__"), "Dynamic import (suspicious)")]

/-- The findings appended by one category loop of the line check: one
Finding per matching rule, in catalog order, with the fixed severity and
category of the loop, the supplied line number, the stripped line
truncated to 100 characters, and the rule description joined to the
category risk suffix. -/
def categoryFindings (rules : List (Pat × String)) (target : List Char)
    (sev cat suf : String) (line_num : Nat) (line : List Char) : List Finding :=
  (rules.filter (fun r => r.1.search target)).map
    (fun r => ⟨sev, cat, line_num, (stripL line).take 100, r.2 ++ " - " ++ suf⟩)

/-- Check a single line against all patterns: the four category loops of
the source, in source order. The credential, exfiltration and dangerous
loops match against the lowercased line; the injection loop matches the
original line under the case-insensitive flag, embedded as matching the
lowercased line against lower-case patterns. -/
def check_line (line : List Char) (line_num : Nat) : List Finding :=
  categoryFindings CRED_THEFT_PATTERNS (lowerL line)
      "critical" "credential_theft" "may steal your API keys" line_num line
    ++ categoryFindings EXFIL_PATTERNS (lowerL line)
      "critical" "data_exfiltration" "may send your data to external server" line_num line
    ++ categoryFindings INJECTION_PATTERNS (lowerL line)
      "high" "prompt_injection" "attempts to override your instructions" line_num line
    ++ categoryFindings DANGEROUS_PATTERNS (lowerL line)
      "high" "dangerous_operation" "could harm your system" line_num line

/-- The findings of the scan loop over enumerated lines, starting at the
given line number. -/
def scanLines : Nat → List (List Char) → List Finding
  | _, [] => []
  | n, l :: rest => check_line l n ++ scanLines (n + 1) rest

/-- Scan of one file content: split on newlines, enumerate from 1, check
every line. -/
def scan_file (content : List Char) : List Finding :=
  scanLines 1 (splitNl content)

/-- The scanner object: a verbose flag and the findings collection that
the line check appends to. -/
structure MoltGuard where
  verbose : Bool
  findings : List Finding
deriving DecidableEq

/-- The loop of MoltGuard.scan_file: for each enumerated line, append
the findings of the line check to the findings collection. -/
def checkLoop : MoltGuard → Nat → List (List Char) → MoltGuard
  | g, _, [] => g
  | g, n, l :: rest =>
    checkLoop { g with findings := g.findings ++ check_line l n } (n + 1) rest

/-- MoltGuard.scan_file on already-read content: reset the findings
collection, run the loop over the enumerated lines of the newline split,
and return the findings together with the final object state. -/
def MoltGuard.scan_file (g : MoltGuard) (content : List Char) :
    List Finding × MoltGuard :=
  let g1 : MoltGuard := { g with findings := [] }
  let g2 := checkLoop g1 1 (splitNl content)
  (g2.findings, g2)

/-- The per-finding pair of report lines: the line number with the
explanation, and the snippet truncated to 80 characters. -/
def findingLines (f : Finding) : List String :=
  ["  Line " ++ toString f.line ++ ": " ++ f.explanation,
   "    " ++ String.mk (f.snippet.take 80)]

/-- Sixty equals signs, the report banner. -/
def eqBanner : String := String.mk (List.replicate 60 '=')

/-- The elements of the lines list the report builder joins with
newlines, for a non-empty findings list: banner and title, the critical
section when non-empty, the high section when non-empty, and the closing
banner with the recommendation. The medium bucket is computed and not
rendered, as in the source. -/
def report_lines (filepath : String) (findings : List Finding) : List String :=
  let critical := findings.filter (fun f => f.severity == "critical")
  let high := findings.filter (fun f => f.severity == "high")
  let _medium := findings.filter (fun f => f.severity == "medium")
  (["\n" ++ eqBanner, "🚨 SECURITY REPORT: " ++ filepath, eqBanner]
    ++ (if critical.isEmpty then []
        else ("\n🔴 CRITICAL ISSUES (" ++ toString critical.length ++ "):")
          :: (critical.map findingLines).flatten)
    ++ (if high.isEmpty then []
        else ("\n🟠 HIGH RISK (" ++ toString high.length ++ "):")
          :: (high.map findingLines).flatten))
    ++ ["\n" ++ eqBanner,
        "RECOMMENDATION: "
          ++ (if critical.isEmpty then "Review carefully" else "DO NOT INSTALL"),
        eqBanner ++ "\n"]

/-- Generate a human-readable report: the clean line for an empty
findings list, otherwise the newline join of the report lines. -/
def generate_report (filepath : String) (findings : List Finding) : String :=
  if findings.isEmpty then "✅ " ++ filepath ++ ": Clean - no issues found"
  else String.intercalate "\n" (report_lines filepath findings)

/-- The structured record emitted per file in JSON mode. -/
structure FileResult where
  file : String
  findings : List Finding
  safe : Bool
deriving DecidableEq

/-- The main loop in report mode, over files given as path and content
pairs: one scanner object threaded through every scan, one rendered
report per file. -/
def processReports (g : MoltGuard) :
    List (String × List Char) → List String × MoltGuard
  | [] => ([], g)
  | (fp, content) :: rest =>
    let r := g.scan_file content
    let out := processReports r.2 rest
    (generate_report fp r.1 :: out.1, out.2)

/-- The main loop in JSON mode, over files given as path and content
pairs: one scanner object threaded through every scan, one structured
record per file, collected in argument order. -/
def processJson (g : MoltGuard) :
    List (String × List Char) → List FileResult × MoltGuard
  | [] => ([], g)
  | (fp, content) :: rest =>
    let r := g.scan_file content
    let out := processJson r.2 rest
    (⟨fp, r.1, r.1.length == 0⟩ :: out.1, out.2)

/-- The rank of a category in the fixed order the line check applies
them. -/
def catRank : String → Nat
  | "credential_theft" => 0
  | "data_exfiltration" => 1
  | "prompt_injection" => 2
  | "dangerous_operation" => 3
  | _ => 4

/-- The order the scan emits findings in: ascending line number, and on
the same line ascending category rank. -/
def scanOrder (f g : Finding) : Prop :=
  f.line < g.line ∨ (f.line = g.line ∧ catRank f.category ≤ catRank g.category)

lemma mem_categoryFindings {rules : List (Pat × String)} {target : List Char}
    {sev cat suf : String} {n : Nat} {l : List Char} {f : Finding}
    (h : f ∈ categoryFindings rules target sev cat suf n l) :
    ∃ r ∈ rules, r.1.search target = true ∧
      f = ⟨sev, cat, n, (stripL l).take 100, r.2 ++ " - " ++ suf⟩ := by
  simp only [categoryFindings, List.mem_map, List.mem_filter] at h
  obtain ⟨r, ⟨hr, hs⟩, hf⟩ := h
  exact ⟨r, hr, hs, hf.symm⟩

lemma categoryFindings_mem {rules : List (Pat × String)} {target : List Char}
    {sev cat suf : String} {n : Nat} {l : List Char} {r : Pat × String}
    (hr : r ∈ rules) (hs : r.1.search target = true) :
    (⟨sev, cat, n, (stripL l).take 100, r.2 ++ " - " ++ suf⟩ : Finding)
      ∈ categoryFindings rules target sev cat suf n l := by
  simp only [categoryFindings, List.mem_map]
  exact ⟨r, List.mem_filter.mpr ⟨hr, hs⟩, rfl⟩

lemma check_line_cases {f : Finding} {l : List Char} {n : Nat}
    (h : f ∈ check_line l n) :
    f.line = n ∧ f.snippet = (stripL l).take 100 ∧
      ((f.category = "credential_theft" ∧ f.severity = "critical" ∧
          ∃ r ∈ CRED_THEFT_PATTERNS, r.1.search (lowerL l) = true ∧
            f.explanation = r.2 ++ " - " ++ "may steal your API keys") ∨
       (f.category = "data_exfiltration" ∧ f.severity = "critical" ∧
          ∃ r ∈ EXFIL_PATTERNS, r.1.search (lowerL l) = true ∧
            f.explanation = r.2 ++ " - " ++ "may send your data to external server") ∨
       (f.category = "prompt_injection" ∧ f.severity = "high" ∧
          ∃ r ∈ INJECTION_PATTERNS, r.1.search (lowerL l) = true ∧
            f.explanation = r.2 ++ " - " ++ "attempts to override your instructions") ∨
       (f.category = "dangerous_operation" ∧ f.severity = "high" ∧
          ∃ r ∈ DANGEROUS_PATTERNS, r.1.search (lowerL l) = true ∧
            f.explanation = r.2 ++ " - " ++ "could harm your system")) := by
  simp only [check_line, List.mem_append] at h
  rcases h with ((h | h) | h) | h
  · obtain ⟨r, hr, hs, rfl⟩ := mem_categoryFindings h
    exact ⟨rfl, rfl, Or.inl ⟨rfl, rfl, r, hr, hs, rfl⟩⟩
  · obtain ⟨r, hr, hs, rfl⟩ := mem_categoryFindings h
    exact ⟨rfl, rfl, Or.inr (Or.inl ⟨rfl, rfl, r, hr, hs, rfl⟩)⟩
  · obtain ⟨r, hr, hs, rfl⟩ := mem_categoryFindings h
    exact ⟨rfl, rfl, Or.inr (Or.inr (Or.inl ⟨rfl, rfl, r, hr, hs, rfl⟩))⟩
  · obtain ⟨r, hr, hs, rfl⟩ := mem_categoryFindings h
    exact ⟨rfl, rfl, Or.inr (Or.inr (Or.inr ⟨rfl, rfl, r, hr, hs, rfl⟩))⟩

lemma check_line_line {f : Finding} {l : List Char} {n : Nat}
    (h : f ∈ check_line l n) : f.line = n := (check_line_cases h).1

lemma catFindings_fields {rules : List (Pat × String)} {target : List Char}
    {sev cat suf : String} {n : Nat} {l : List Char} {f : Finding}
    (h : f ∈ categoryFindings rules target sev cat suf n l) :
    f.line = n ∧ f.category = cat := by
  obtain ⟨r, _, _, rfl⟩ := mem_categoryFindings h
  exact ⟨rfl, rfl⟩

lemma pairwise_catFindings (rules : List (Pat × String)) (target : List Char)
    (sev cat suf : String) (n : Nat) (l : List Char) :
    (categoryFindings rules target sev cat suf n l).Pairwise scanOrder := by
  apply List.pairwise_of_forall_mem_list
  intro a ha b hb
  obtain ⟨ra, _, _, rfl⟩ := mem_categoryFindings ha
  obtain ⟨rb, _, _, rfl⟩ := mem_categoryFindings hb
  exact Or.inr ⟨rfl, le_refl _⟩

lemma check_line_pairwise (l : List Char) (n : Nat) :
    (check_line l n).Pairwise scanOrder := by
  have cross : ∀ (r1 r2 : List (Pat × String)) (t1 t2 : List Char)
      (s1 c1 x1 s2 c2 x2 : String) (a b : Finding),
      a ∈ categoryFindings r1 t1 s1 c1 x1 n l →
      b ∈ categoryFindings r2 t2 s2 c2 x2 n l →
      catRank c1 ≤ catRank c2 → scanOrder a b := by
    intro r1 r2 t1 t2 s1 c1 x1 s2 c2 x2 a b ha hb hle
    obtain ⟨ha1, ha2⟩ := catFindings_fields ha
    obtain ⟨hb1, hb2⟩ := catFindings_fields hb
    exact Or.inr ⟨ha1.trans hb1.symm, by rw [ha2, hb2]; exact hle⟩
  simp only [check_line]
  refine List.pairwise_append.mpr
    ⟨?_, pairwise_catFindings _ _ _ _ _ _ _, ?_⟩
  · refine List.pairwise_append.mpr
      ⟨?_, pairwise_catFindings _ _ _ _ _ _ _, ?_⟩
    · refine List.pairwise_append.mpr
        ⟨pairwise_catFindings _ _ _ _ _ _ _,
         pairwise_catFindings _ _ _ _ _ _ _, ?_⟩
      intro a ha b hb
      exact cross _ _ _ _ _ _ _ _ _ _ a b ha hb (by decide)
    · intro a ha b hb
      rcases List.mem_append.mp ha with ha | ha
      · exact cross _ _ _ _ _ _ _ _ _ _ a b ha hb (by decide)
      · exact cross _ _ _ _ _ _ _ _ _ _ a b ha hb (by decide)
  · intro a ha b hb
    rcases List.mem_append.mp ha with ha | ha
    · rcases List.mem_append.mp ha with ha | ha
      · exact cross _ _ _ _ _ _ _ _ _ _ a b ha hb (by decide)
      · exact cross _ _ _ _ _ _ _ _ _ _ a b ha hb (by decide)
    · exact cross _ _ _ _ _ _ _ _ _ _ a b ha hb (by decide)

lemma scanLines_line_ge {f : Finding} :
    ∀ {n : Nat} {ls : List (List Char)}, f ∈ scanLines n ls → n ≤ f.line := by
  intro n ls
  induction ls generalizing n with
  | nil => intro h; simp [scanLines] at h
  | cons hd tl ih =>
    intro h
    simp only [scanLines] at h
    rcases List.mem_append.mp h with h | h
    · exact (check_line_line h) ▸ le_refl _
    · exact Nat.le_of_succ_le (ih h)

lemma scanLines_pairwise : ∀ (n : Nat) (ls : List (List Char)),
    (scanLines n ls).Pairwise scanOrder := by
  intro n ls
  induction ls generalizing n with
  | nil => simp [scanLines]
  | cons hd tl ih =>
    simp only [scanLines]
    refine List.pairwise_append.mpr ⟨check_line_pairwise hd n, ih (n + 1), ?_⟩
    intro a ha b hb
    have h1 := check_line_line ha
    have h2 := scanLines_line_ge hb
    exact Or.inl (by omega)

lemma scanLines_filter : ∀ (ls : List (List Char)) (n i : Nat) (l : List Char),
    ls.get? i = some l →
    (scanLines n ls).filter (fun f => f.line == n + i) = check_line l (n + i) := by
  intro ls
  induction ls with
  | nil => intro n i l h; simp at h
  | cons hd tl ih =>
    intro n i l h
    cases i with
    | zero =>
      simp only [List.get?] at h
      injection h with h
      subst h
      simp only [scanLines, List.filter_append, Nat.add_zero]
      have h1 : (check_line hd n).filter (fun f => f.line == n) = check_line hd n :=
        List.filter_eq_self.mpr (fun f hf => by
          have hl := check_line_line hf
          simp [hl])
      have h2 : (scanLines (n + 1) tl).filter (fun f => f.line == n) = [] :=
        List.filter_eq_nil_iff.mpr (fun f hf => by
          have hl := scanLines_line_ge hf
          simp only [beq_iff_eq]
          omega)
      rw [h1, h2, List.append_nil]
    | succ j =>
      simp only [List.get?] at h
      simp only [scanLines, List.filter_append]
      have h1 : (check_line hd n).filter (fun f => f.line == n + (j + 1)) = [] :=
        List.filter_eq_nil_iff.mpr (fun f hf => by
          have hl := check_line_line hf
          simp only [beq_iff_eq]
          omega)
      have h2 := ih (n + 1) j l h
      rw [h1, List.nil_append, show n + (j + 1) = n + 1 + j by omega]
      exact h2

lemma scanLines_mem {ls : List (List Char)} {n i : Nat} {l : List Char}
    {f : Finding} (hget : ls.get? i = some l)
    (hf : f ∈ check_line l (n + i)) : f ∈ scanLines n ls :=
  List.mem_of_mem_filter ((scanLines_filter ls n i l hget) ▸ hf)

lemma scanLines_mem_inv {f : Finding} :
    ∀ {n : Nat} {ls : List (List Char)}, f ∈ scanLines n ls →
      ∃ i l, ls.get? i = some l ∧ f ∈ check_line l (n + i) := by
  intro n ls
  induction ls generalizing n with
  | nil => intro h; simp [scanLines] at h
  | cons hd tl ih =>
    intro h
    simp only [scanLines] at h
    rcases List.mem_append.mp h with h | h
    · exact ⟨0, hd, rfl, by simpa using h⟩
    · obtain ⟨i, l, hget, hf⟩ := ih h
      exact ⟨i + 1, l, by simpa using hget,
        by rw [show n + (i + 1) = n + 1 + i by omega]; exact hf⟩

lemma splitNl_ne_nil (s : List Char) : splitNl s ≠ [] := by
  cases s with
  | nil => simp [splitNl]
  | cons c rest =>
    rw [splitNl]
    by_cases hc : c = '\n'
    · simp [hc]
    · rw [if_neg hc]
      cases h : splitNl rest <;> simp

lemma splitNl_no_nl : ∀ (s : List Char), ∀ p ∈ splitNl s, '\n' ∉ p := by
  intro s
  induction s with
  | nil =>
    intro p hp
    simp only [splitNl, List.mem_singleton] at hp
    subst hp
    simp
  | cons c rest ih =>
    intro p hp
    by_cases hc : c = '\n'
    · rw [splitNl, if_pos hc] at hp
      rcases List.mem_cons.mp hp with rfl | hp
      · simp
      · exact ih p hp
    · rw [splitNl, if_neg hc] at hp
      cases hsp : splitNl rest with
      | nil => exact absurd hsp (splitNl_ne_nil rest)
      | cons p0 ps =>
        rw [hsp] at hp
        rcases List.mem_cons.mp hp with rfl | hp
        · intro hmem
          rcases List.mem_cons.mp hmem with h1 | h1
          · exact hc h1.symm
          · exact ih p0 (by rw [hsp]; exact List.mem_cons_self p0 ps) h1
        · exact ih p (by rw [hsp]; exact List.mem_cons_of_mem p0 hp)

lemma mem_stripL {c : Char} {l : List Char} (h : c ∈ stripL l) : c ∈ l := by
  unfold stripL at h
  have h1 : c ∈ (l.dropWhile isPySpace).reverse.dropWhile isPySpace :=
    List.mem_reverse.mp h
  have h2 : c ∈ (l.dropWhile isPySpace).reverse :=
    (List.dropWhile_sublist _).subset h1
  have h3 : c ∈ l.dropWhile isPySpace := List.mem_reverse.mp h2
  exact (List.dropWhile_sublist _).subset h3

lemma checkLoop_findings : ∀ (ls : List (List Char)) (g : MoltGuard) (n : Nat),
    (checkLoop g n ls).findings = g.findings ++ scanLines n ls := by
  intro ls
  induction ls with
  | nil => intro g n; simp [checkLoop, scanLines]
  | cons hd tl ih =>
    intro g n
    simp only [checkLoop, scanLines]
    rw [ih]
    simp [List.append_assoc]

lemma scan_file_fst (g : MoltGuard) (content : List Char) :
    (g.scan_file content).1 = scan_file content := by
  simp [MoltGuard.scan_file, scan_file, checkLoop_findings]

lemma processReports_fst : ∀ (files : List (String × List Char)) (g : MoltGuard),
    (processReports g files).1 =
      files.map (fun p => generate_report p.1 (scan_file p.2)) := by
  intro files
  induction files with
  | nil => intro g; rfl
  | cons hd tl ih =>
    intro g
    cases hd with
    | mk fp content => simp [processReports, ih, scan_file_fst]

lemma processJson_fst : ∀ (files : List (String × List Char)) (g : MoltGuard),
    (processJson g files).1 =
      files.map (fun p =>
        (⟨p.1, scan_file p.2, (scan_file p.2).length == 0⟩ : FileResult)) := by
  intro files
  induction files with
  | nil => intro g; rfl
  | cons hd tl ih =>
    intro g
    cases hd with
    | mk fp content => simp [processJson, ih, scan_file_fst]

lemma report_lines_rec (fp : String) (fs : List Finding) :
    (report_lines fp fs).reverse.get? 1 =
      some ("RECOMMENDATION: " ++
        (if (fs.filter (fun f => f.severity == "critical")).isEmpty
         then "Review carefully" else "DO NOT INSTALL")) := by
  simp only [report_lines]
  rw [List.reverse_append]
  rfl

/-- C1: On the line of the claim, the scan emits exactly one finding,
from the webhook.site rule, instead of the three the claim expects: the
patterns of the curl-POST rule and of the generic POST-http rule keep
their upper-case letters but are searched in the lowercased line, so
they can never match. -/
theorem C1_code_eval :
    scan_file (cl "curl -X POST https://webhook.site/abc") =
      [⟨"critical", "data_exfiltration", 1,
        cl "curl -X POST https://webhook.site/abc",
        "Known exfiltration endpoint - may send your data to external server"⟩] := by
  decide

/-- C2: The line POST http contains POST followed later by http, yet the
scan yields no finding at all: the POST-http pattern is searched in the
lowercased line, where its upper-case letters never occur. -/
theorem C2_code_eval : scan_file (cl "POST http") = [] := by
  decide

/-- C3 counterexample: on the line webhook.site the scanner emits a
data_exfiltration finding whose explanation does not end in the suffix
the claim states; the code writes the suffix without the word an. -/
theorem C3_counterexample :
    ∃ f ∈ scan_file (cl "webhook.site"), f.category = "data_exfiltration" ∧
      (cl "may send your data to an external server").isSuffixOf
          f.explanation.toList = false ∧
      f.explanation =
        "Known exfiltration endpoint - may send your data to external server" := by
  decide

/-- C3 (amended): every finding explanation is the matched rule
description, the separator, and the fixed risk suffix of its category;
the data_exfiltration suffix is may send your data to external server,
without an, and the other three suffixes are as the claim states. -/
theorem C3_explanation_suffixes (content : List Char) (f : Finding)
    (hf : f ∈ scan_file content) :
    (f.category = "credential_theft" →
      ∃ r ∈ CRED_THEFT_PATTERNS,
        f.explanation = r.2 ++ " - " ++ "may steal your API keys") ∧
    (f.category = "data_exfiltration" →
      ∃ r ∈ EXFIL_PATTERNS,
        f.explanation = r.2 ++ " - " ++ "may send your data to external server") ∧
    (f.category = "prompt_injection" →
      ∃ r ∈ INJECTION_PATTERNS,
        f.explanation = r.2 ++ " - " ++ "attempts to override your instructions") ∧
    (f.category = "dangerous_operation" →
      ∃ r ∈ DANGEROUS_PATTERNS,
        f.explanation = r.2 ++ " - " ++ "could harm your system") := by
  obtain ⟨i, l, hget, hmem⟩ := scanLines_mem_inv hf
  obtain ⟨-, -, hcase⟩ := check_line_cases hmem
  rcases hcase with ⟨hc, -, r, hr, -, he⟩ | ⟨hc, -, r, hr, -, he⟩ |
    ⟨hc, -, r, hr, -, he⟩ | ⟨hc, -, r, hr, -, he⟩
  · exact ⟨fun _ => ⟨r, hr, he⟩,
      fun h => absurd (hc.symm.trans h) (by decide),
      fun h => absurd (hc.symm.trans h) (by decide),
      fun h => absurd (hc.symm.trans h) (by decide)⟩
  · exact ⟨fun h => absurd (hc.symm.trans h) (by decide),
      fun _ => ⟨r, hr, he⟩,
      fun h => absurd (hc.symm.trans h) (by decide),
      fun h => absurd (hc.symm.trans h) (by decide)⟩
  · exact ⟨fun h => absurd (hc.symm.trans h) (by decide),
      fun h => absurd (hc.symm.trans h) (by decide),
      fun _ => ⟨r, hr, he⟩,
      fun h => absurd (hc.symm.trans h) (by decide)⟩
  · exact ⟨fun h => absurd (hc.symm.trans h) (by decide),
      fun h => absurd (hc.symm.trans h) (by decide),
      fun h => absurd (hc.symm.trans h) (by decide),
      fun _ => ⟨r, hr, he⟩⟩

/-- C3 witness: the amended theorem applied to the single finding of a
scan of the line webhook.site. -/
theorem C3_explanation_suffixes_witness :
    ∃ r ∈ EXFIL_PATTERNS,
      (Finding.mk "critical" "data_exfiltration" 1 (cl "webhook.site")
        "Known exfiltration endpoint - may send your data to external server").explanation
        = r.2 ++ " - " ++ "may send your data to external server" := by
  have h := C3_explanation_suffixes (cl "webhook.site")
    ⟨"critical", "data_exfiltration", 1, cl "webhook.site",
      "Known exfiltration endpoint - may send your data to external server"⟩
    (by decide)
  exact h.2.1 rfl

/-- C4: the report for an empty findings list is the single clean line
naming the file; for a non-empty list, the report is the newline join of
the report lines, whose second-to-last element is the recommendation:
DO NOT INSTALL exactly when a critical finding exists, and Review
carefully otherwise. -/
theorem C4_recommendation (fp : String) (fs : List Finding) :
    (fs = [] →
      generate_report fp fs = "✅ " ++ fp ++ ": Clean - no issues found") ∧
    (fs ≠ [] →
      generate_report fp fs = String.intercalate "\n" (report_lines fp fs) ∧
      ((∃ f ∈ fs, f.severity = "critical") →
        (report_lines fp fs).reverse.get? 1 =
          some "RECOMMENDATION: DO NOT INSTALL") ∧
      ((∀ f ∈ fs, f.severity ≠ "critical") →
        (report_lines fp fs).reverse.get? 1 =
          some "RECOMMENDATION: Review carefully")) := by
  constructor
  · intro h
    subst h
    rfl
  · intro hne
    refine ⟨by simp [generate_report, hne], ?_, ?_⟩
    · intro ⟨f, hf, hsev⟩
      have hcrit : (fs.filter (fun f => f.severity == "critical")).isEmpty = false := by
        have hm : f ∈ fs.filter (fun f => f.severity == "critical") :=
          List.mem_filter.mpr ⟨hf, by simp [hsev]⟩
        cases hemp : (fs.filter (fun f => f.severity == "critical")).isEmpty
        · rfl
        · rw [List.isEmpty_iff] at hemp
          rw [hemp] at hm
          simp at hm
      rw [report_lines_rec, hcrit]
      rfl
    · intro hall
      have hcrit : (fs.filter (fun f => f.severity == "critical")).isEmpty = true := by
        rw [List.isEmpty_iff, List.filter_eq_nil_iff]
        intro f hf
        simp [hall f hf]
      rw [report_lines_rec, hcrit]
      rfl

/-- C4 witness: the theorem applied to a one-element critical findings
list. -/
theorem C4_recommendation_witness :
    (report_lines "skill.md" [⟨"critical", "credential_theft", 1, cl "password",
        "Password access - may steal your API keys"⟩]).reverse.get? 1 =
      some "RECOMMENDATION: DO NOT INSTALL" := by
  have h := C4_recommendation "skill.md"
    [⟨"critical", "credential_theft", 1, cl "password",
      "Password access - may steal your API keys"⟩]
  exact ((h.2 (by simp)).2).1
    ⟨⟨"critical", "credential_theft", 1, cl "password",
      "Password access - may steal your API keys"⟩, by simp, rfl⟩

/-- C5: any line of the input that contains api_key or apikey in any
letter case produces at least one critical credential_theft finding
carrying the 1-based number of that line. -/
theorem C5_api_key (content : List Char) (i : Nat) (l : List Char)
    (hget : (splitNl content).get? i = some l)
    (hcase : hasSub (cl "api_key") (lowerL l) = true ∨
             hasSub (cl "apikey") (lowerL l) = true) :
    ∃ f ∈ scan_file content, f.category = "credential_theft" ∧
      f.severity = "critical" ∧ f.line = i + 1 := by
  have hsearch : (Pat.alts [cl "apikey", cl "api_key", cl "api-key"]).search
      (lowerL l) = true := by
    simp only [Pat.search, List.any_eq_true]
    rcases hcase with h | h
    · exact ⟨cl "api_key", by simp, h⟩
    · exact ⟨cl "apikey", by simp, h⟩
  have hr : ((Pat.alts [cl "apikey", cl "api_key", cl "api-key"],
      "API key access") : Pat × String) ∈ CRED_THEFT_PATTERNS := by
    simp [CRED_THEFT_PATTERNS]
  have hmem : (⟨"critical", "credential_theft", i + 1, (stripL l).take 100,
      "API key access" ++ " - " ++ "may steal your API keys"⟩ : Finding)
      ∈ categoryFindings CRED_THEFT_PATTERNS (lowerL l)
        "critical" "credential_theft" "may steal your API keys" (i + 1) l :=
    categoryFindings_mem hr hsearch
  have hcheck : (⟨"critical", "credential_theft", i + 1, (stripL l).take 100,
      "API key access" ++ " - " ++ "may steal your API keys"⟩ : Finding)
      ∈ check_line l (i + 1) := by
    simp only [check_line]
    exact List.mem_append_left _ (List.mem_append_left _
      (List.mem_append_left _ hmem))
  have hcheck2 : (⟨"critical", "credential_theft", i + 1, (stripL l).take 100,
      "API key access" ++ " - " ++ "may steal your API keys"⟩ : Finding)
      ∈ check_line l (1 + i) := by
    rw [Nat.add_comm 1 i]
    exact hcheck
  exact ⟨_, scanLines_mem hget hcheck2, rfl, rfl, rfl⟩

/-- C5 witness: the theorem applied to a one-line content containing
API_KEY in upper case. -/
theorem C5_api_key_witness :
    ∃ f ∈ scan_file (cl "x API_KEY y"), f.category = "credential_theft" ∧
      f.severity = "critical" ∧ f.line = 0 + 1 :=
  C5_api_key (cl "x API_KEY y") 0 (cl "x API_KEY y") (by decide)
    (Or.inl (by decide))

/-- C6: the scan output is ordered by ascending line number and, within
one line, by the fixed category order, and the block of findings
carrying line number i+1 is exactly the full line check of the i-th
piece of the newline split, so every rule match of a line is kept, in
catalog order, with no deduplication. -/
theorem C6_ordering (content : List Char) :
    (scan_file content).Pairwise scanOrder ∧
    ∀ i l, (splitNl content).get? i = some l →
      (scan_file content).filter (fun f => f.line == i + 1) =
        check_line l (i + 1) := by
  constructor
  · exact scanLines_pairwise 1 (splitNl content)
  · intro i l hget
    have h := scanLines_filter (splitNl content) 1 i l hget
    rw [Nat.add_comm 1 i] at h
    exact h

/-- C6 witness: the filter characterization applied to a two-line
content, at its second line. -/
theorem C6_ordering_witness :
    (scan_file (cl "password\ntoken")).filter (fun f => f.line == 1 + 1) =
      check_line (cl "token") (1 + 1) :=
  (C6_ordering (cl "password\ntoken")).2 1 (cl "token") (by decide)

/-- C7: every finding snippet is the stripped text of its source line
truncated to 100 characters, and its length never exceeds 100. -/
theorem C7_snippet (content : List Char) (f : Finding)
    (hf : f ∈ scan_file content) :
    f.snippet.length ≤ 100 ∧
      ∃ i l, (splitNl content).get? i = some l ∧ f.line = i + 1 ∧
        f.snippet = (stripL l).take 100 := by
  obtain ⟨i, l, hget, hmem⟩ := scanLines_mem_inv hf
  obtain ⟨hline, hsnip, -⟩ := check_line_cases hmem
  refine ⟨?_, i, l, hget, by omega, hsnip⟩
  rw [hsnip, List.length_take]
  exact min_le_left _ _

/-- C7 witness: the theorem applied to the finding of a scan of the
line password. -/
theorem C7_snippet_witness :
    (Finding.mk "critical" "credential_theft" 1 (cl "password")
      "Password access - may steal your API keys").snippet.length ≤ 100 :=
  (C7_snippet (cl "password")
    ⟨"critical", "credential_theft", 1, cl "password",
      "Password access - may steal your API keys"⟩ (by decide)).1

/-- C8: the findings returned by the stateful scanner are a function of
the content alone: scanners in any two states, in particular states left
by earlier scans of other files, return the same findings, equal to the
pure scan of the content. -/
theorem C8_deterministic (g g2 : MoltGuard) (content : List Char) :
    (g.scan_file content).1 = (g2.scan_file content).1 ∧
    (g.scan_file content).1 = scan_file content :=
  ⟨(scan_file_fst g content).trans (scan_file_fst g2 content).symm,
   scan_file_fst g content⟩

/-- C9: the verbose flag is observationally inert: for any batch of
files the rendered reports, the structured records and each scan result
are identical under verbose true and verbose false, whatever findings
the two scanner states hold. -/
theorem C9_verbose_inert (fs1 fs2 : List Finding)
    (files : List (String × List Char)) (content : List Char) :
    (processReports ⟨true, fs1⟩ files).1 =
      (processReports ⟨false, fs2⟩ files).1 ∧
    (processJson ⟨true, fs1⟩ files).1 = (processJson ⟨false, fs2⟩ files).1 ∧
    (MoltGuard.scan_file ⟨true, fs1⟩ content).1 =
      (MoltGuard.scan_file ⟨false, fs2⟩ content).1 := by
  refine ⟨?_, ?_, ?_⟩
  · rw [processReports_fst, processReports_fst]
  · rw [processJson_fst, processJson_fst]
  · rw [scan_file_fst, scan_file_fst]

/-- C10: two findings of one scan that carry the same line number have
the same snippet, and no snippet contains a newline, because the check
runs on the pieces of the newline split. -/
theorem C10_snippet_consistency (content : List Char) (f g : Finding)
    (hf : f ∈ scan_file content) (hg : g ∈ scan_file content) :
    (f.line = g.line → f.snippet = g.snippet) ∧ '\n' ∉ f.snippet := by
  obtain ⟨i, l, hget, hmem⟩ := scanLines_mem_inv hf
  obtain ⟨hline, hsnip, -⟩ := check_line_cases hmem
  obtain ⟨j, m, hget2, hmem2⟩ := scanLines_mem_inv hg
  obtain ⟨hline2, hsnip2, -⟩ := check_line_cases hmem2
  constructor
  · intro heq
    have hij : i = j := by omega
    subst hij
    rw [hget] at hget2
    injection hget2 with hlm
    rw [hsnip, hsnip2, hlm]
  · rw [hsnip]
    intro hin
    exact splitNl_no_nl content l (List.get?_mem hget)
      (mem_stripL (List.take_subset _ _ hin))

/-- C10 witness: the theorem applied twice to the finding of a scan of
the line password. -/
theorem C10_snippet_consistency_witness :
    '\n' ∉ (Finding.mk "critical" "credential_theft" 1 (cl "password")
      "Password access - may steal your API keys").snippet :=
  (C10_snippet_consistency (cl "password")
    ⟨"critical", "credential_theft", 1, cl "password",
      "Password access - may steal your API keys"⟩
    ⟨"critical", "credential_theft", 1, cl "password",
      "Password access - may steal your API keys"⟩
    (by decide) (by decide)).2

end Moltguard
